import Mathlib

/-!
Verification of the data-processing core of the LOLIN_Thermometer project
(`src/DataUtils.h`, `src/DataUtils.cpp`). The C code keeps three private
static variables (the smoothing filter state, the circular trend buffer and
its write cursor); we model them as an explicit state record over ℚ and the
public functions as state transformers.
-/

/-- `DEFAULT_TEMP` from DataUtils.h: default temperature before the first
sensor reading. -/
def DEFAULT_TEMP : ℚ := 20

/-- `ALPHA` from DataUtils.h: the exponential-smoothing coefficient 0.02. -/
def ALPHA : ℚ := 2 / 100

/-- `TREND_COUNT` from DataUtils.h: the number of slots of the circular
trend buffer. -/
def TREND_COUNT : ℕ := 10

/-- `TREND_THRESHOLD` from DataUtils.h: the trend-classification threshold
0.1 degrees. -/
def TREND_THRESHOLD : ℚ := 1 / 10

/-- The private static state of DataUtils.cpp: the filter value
`DU_Filtered`, the circular buffer `DU_TmprTrendBuffer` (modelled as a total
map from indices, only indices below `TREND_COUNT` are the array), and the
write cursor `DU_TmprTrendBufferIdx`. -/
structure DUState where
  DU_Filtered : ℚ
  DU_TmprTrendBuffer : ℕ → ℚ
  DU_TmprTrendBufferIdx : ℕ

/-- The state at program start: `DU_Filtered = DEFAULT_TEMP` (explicit
initializer), the buffer zero-initialized (static storage), and the cursor
initialized to 0 (explicit initializer, DataUtils.cpp line 36). -/
def initialState : DUState :=
  { DU_Filtered := DEFAULT_TEMP
    DU_TmprTrendBuffer := fun _ => 0
    DU_TmprTrendBufferIdx := 0 }

/-- `Init_ExponentialSmooth` (DataUtils.cpp): sets `DU_Filtered = t_init`. -/
def Init_ExponentialSmooth (t_init : ℚ) (s : DUState) : DUState :=
  { s with DU_Filtered := t_init }

/-- `Init_TmprTrendBuffer` (DataUtils.cpp): the loop writes `t_init` into
every slot `i < TREND_COUNT`; it does not touch the cursor. -/
def Init_TmprTrendBuffer (t_init : ℚ) (s : DUState) : DUState :=
  { s with
    DU_TmprTrendBuffer :=
      fun i => if i < TREND_COUNT then t_init else s.DU_TmprTrendBuffer i }

/-- `Run_ExponentialSmooth` (DataUtils.cpp):
`DU_Filtered = (ALPHA * rawValue) + ((1.0 - ALPHA) * DU_Filtered)`, then
returns the new `DU_Filtered`. Returned value first, new state second. -/
def Run_ExponentialSmooth (rawValue : ℚ) (s : DUState) : ℚ × DUState :=
  let f := ALPHA * rawValue + (1 - ALPHA) * s.DU_Filtered
  (f, { s with DU_Filtered := f })

/-- `AddTmprToTrendBuffer` (DataUtils.cpp): stores `newTmpr` at the current
cursor and advances the cursor modulo `TREND_COUNT`. -/
def AddTmprToTrendBuffer (newTmpr : ℚ) (s : DUState) : DUState :=
  { s with
    DU_TmprTrendBuffer :=
      fun i => if i = s.DU_TmprTrendBufferIdx then newTmpr
               else s.DU_TmprTrendBuffer i
    DU_TmprTrendBufferIdx := (s.DU_TmprTrendBufferIdx + 1) % TREND_COUNT }

/-- The `oldestIdx` local of `GetTemperatureTrend`: the current cursor. -/
def trendOldestIdx (s : DUState) : ℕ := s.DU_TmprTrendBufferIdx

/-- The `newestIdx` local of `GetTemperatureTrend`: `TREND_COUNT - 1` when
the cursor is 0, otherwise the cursor minus one. -/
def trendNewestIdx (s : DUState) : ℕ :=
  if s.DU_TmprTrendBufferIdx = 0 then TREND_COUNT - 1
  else s.DU_TmprTrendBufferIdx - 1

/-- `GetTemperatureTrend` (DataUtils.cpp): compares the newest and oldest
buffered values against `TREND_THRESHOLD`; returns 1 (rising), -1 (falling)
or 0 (stable). -/
def GetTemperatureTrend (s : DUState) : ℤ :=
  let oldestTemp := s.DU_TmprTrendBuffer (trendOldestIdx s)
  let newestTemp := s.DU_TmprTrendBuffer (trendNewestIdx s)
  if newestTemp > oldestTemp + TREND_THRESHOLD then 1
  else if newestTemp < oldestTemp - TREND_THRESHOLD then -1
  else 0

/-- The operations on the trend buffer that a caller can issue
(spec section 4.2: Init, Add, Classify). Classify does not change state. -/
inductive DUOp where
  | initBuf (t : ℚ)
  | add (v : ℚ)
  | classify

/-- Apply one trend-buffer operation to the state. -/
def applyOp (op : DUOp) (s : DUState) : DUState :=
  match op with
  | .initBuf t => Init_TmprTrendBuffer t s
  | .add v => AddTmprToTrendBuffer v s
  | .classify => s

/-- Run a sequence of trend-buffer operations from a starting state. -/
def runOps : List DUOp → DUState → DUState
  | [], s => s
  | op :: rest, s => runOps rest (applyOp op s)

/-- Number of `add` operations in a sequence. -/
def countAdds : List DUOp → ℕ
  | [] => 0
  | DUOp.add _ :: rest => countAdds rest + 1
  | _ :: rest => countAdds rest

/-- The exponential-smoothing update formula of `Run_ExponentialSmooth`,
abstracted over the smoothing coefficient (spec section 8 quantifies over
the coefficient). -/
def smoothUpdate (a rawValue prevFiltered : ℚ) : ℚ :=
  a * rawValue + (1 - a) * prevFiltered

/-- Modelled from the spec: the body of `RoundToDecimals` is not among the
provided sources (DataUtils.h line 94 declares it and the sketch calls it,
but no definition appears in src/); per spec section 4.3 it scales by
`10^places`, rounds to the nearest integer, and rescales. -/
def RoundToDecimals (value : ℚ) (places : ℕ) : ℚ :=
  (round (value * 10 ^ places) : ℚ) / 10 ^ places

/-- The spec scenario state for the rising trend: Init with 20.0, nine
Add(20.0) calls, then Add(25.0). -/
def risingState : DUState :=
  runOps (List.replicate 9 (DUOp.add 20) ++ [DUOp.add 25])
    (Init_TmprTrendBuffer 20 initialState)

/-- The spec scenario state for the falling trend: Init with 20.0, nine
Add(20.0) calls, then Add(15.0). -/
def fallingState : DUState :=
  runOps (List.replicate 9 (DUOp.add 20) ++ [DUOp.add 15])
    (Init_TmprTrendBuffer 20 initialState)

/-- A state whose cursor is 3, as left by three Add calls; used to exhibit
that `Init_TmprTrendBuffer` does not reset the cursor. -/
def stateIdx3 : DUState :=
  { DU_Filtered := 20
    DU_TmprTrendBuffer := fun _ => 20
    DU_TmprTrendBufferIdx := 3 }

/-- C1: for every prior filter state and every raw input,
`Run_ExponentialSmooth` computes `ALPHA*raw + (1-ALPHA)*filtered`, stores
that value as the new filter state, and returns it. -/
theorem run_exponentialSmooth_spec (rawValue : ℚ) (s : DUState) :
    (Run_ExponentialSmooth rawValue s).1
        = ALPHA * rawValue + (1 - ALPHA) * s.DU_Filtered
    ∧ (Run_ExponentialSmooth rawValue s).2.DU_Filtered
        = (Run_ExponentialSmooth rawValue s).1 :=
  ⟨rfl, rfl⟩

/-- C2 counterexample: from a prior state with cursor 3,
`Init_TmprTrendBuffer` leaves the cursor at 3, not 0 — the C function only
fills the slots and never touches `DU_TmprTrendBufferIdx`. -/
theorem init_trendBuffer_cursor_not_reset :
    (Init_TmprTrendBuffer 20 stateIdx3).DU_TmprTrendBufferIdx ≠ 0 := by
  decide

/-- C2 (amended): after `Init_TmprTrendBuffer t0` all `TREND_COUNT` slots
hold `t0`, and the write cursor is left unchanged; the cursor equals 0 at
program start because of its static initializer, not because Init resets
it. -/
theorem init_trendBuffer_spec (t0 : ℚ) (s : DUState) :
    (∀ i : Fin TREND_COUNT,
        (Init_TmprTrendBuffer t0 s).DU_TmprTrendBuffer i.val = t0)
    ∧ (Init_TmprTrendBuffer t0 s).DU_TmprTrendBufferIdx
        = s.DU_TmprTrendBufferIdx
    ∧ initialState.DU_TmprTrendBufferIdx = 0 := by
  refine ⟨fun i => ?_, rfl, rfl⟩
  show (if i.val < TREND_COUNT then t0 else s.DU_TmprTrendBuffer i.val) = t0
  exact if_pos i.isLt

/-- C4: `AddTmprToTrendBuffer v` writes `v` into the slot at the cursor,
leaves every other slot unchanged, and advances the cursor modulo
`TREND_COUNT`. -/
theorem addTmprToTrendBuffer_spec (v : ℚ) (s : DUState) :
    (AddTmprToTrendBuffer v s).DU_TmprTrendBuffer s.DU_TmprTrendBufferIdx = v
    ∧ (∀ j : ℕ, j ≠ s.DU_TmprTrendBufferIdx →
        (AddTmprToTrendBuffer v s).DU_TmprTrendBuffer j
          = s.DU_TmprTrendBuffer j)
    ∧ (AddTmprToTrendBuffer v s).DU_TmprTrendBufferIdx
        = (s.DU_TmprTrendBufferIdx + 1) % TREND_COUNT := by
  refine ⟨?_, fun j hj => ?_, rfl⟩
  · show (if s.DU_TmprTrendBufferIdx = s.DU_TmprTrendBufferIdx then v
          else s.DU_TmprTrendBuffer s.DU_TmprTrendBufferIdx) = v
    exact if_pos rfl
  · show (if j = s.DU_TmprTrendBufferIdx then v else s.DU_TmprTrendBuffer j)
        = s.DU_TmprTrendBuffer j
    exact if_neg hj

/-- C4 witness: adding 25 to the initial state writes slot 0 and moves the
cursor to 1. -/
theorem addTmprToTrendBuffer_spec_witness :
    (AddTmprToTrendBuffer 25 initialState).DU_TmprTrendBuffer 0 = 25
    ∧ (AddTmprToTrendBuffer 25 initialState).DU_TmprTrendBuffer 5 = 0
    ∧ (AddTmprToTrendBuffer 25 initialState).DU_TmprTrendBufferIdx = 1 :=
  ⟨(addTmprToTrendBuffer_spec 25 initialState).1,
   (addTmprToTrendBuffer_spec 25 initialState).2.1 5 (by decide),
   (addTmprToTrendBuffer_spec 25 initialState).2.2⟩

/-- C7: `Init_ExponentialSmooth t0` followed immediately by
`Run_ExponentialSmooth t0` returns exactly `t0`. -/
theorem init_then_run_fixed (t0 : ℚ) (s : DUState) :
    (Run_ExponentialSmooth t0 (Init_ExponentialSmooth t0 s)).1 = t0 := by
  show ALPHA * t0 + (1 - ALPHA) * t0 = t0
  ring

/-- C10: calling `Run_ExponentialSmooth` before any Init succeeds: the
filter state is pre-initialized to `DEFAULT_TEMP = 20`, so the first update
returns `ALPHA*raw + (1-ALPHA)*20`. -/
theorem run_before_init (raw : ℚ) :
    initialState.DU_Filtered = DEFAULT_TEMP
    ∧ DEFAULT_TEMP = 20
    ∧ (Run_ExponentialSmooth raw initialState).1
        = ALPHA * raw + (1 - ALPHA) * 20 :=
  ⟨rfl, rfl, rfl⟩

/-- Cursor evolution: starting from any state whose cursor is in range, a
sequence of trend-buffer operations leaves the cursor congruent to the
starting cursor plus the number of Add calls, modulo `TREND_COUNT`. -/
theorem idx_invariant (ops : List DUOp) (s : DUState)
    (h : s.DU_TmprTrendBufferIdx < TREND_COUNT) :
    (runOps ops s).DU_TmprTrendBufferIdx
      = (s.DU_TmprTrendBufferIdx + countAdds ops) % TREND_COUNT := by
  induction ops generalizing s with
  | nil =>
      simp only [runOps, countAdds, Nat.add_zero]
      unfold TREND_COUNT at *
      omega
  | cons op rest ih =>
      cases op with
      | initBuf t0 =>
          show (runOps rest (Init_TmprTrendBuffer t0 s)).DU_TmprTrendBufferIdx
              = (s.DU_TmprTrendBufferIdx + countAdds rest) % TREND_COUNT
          exact ih (Init_TmprTrendBuffer t0 s) h
      | add v =>
          show (runOps rest (AddTmprToTrendBuffer v s)).DU_TmprTrendBufferIdx
              = (s.DU_TmprTrendBufferIdx + (countAdds rest + 1)) % TREND_COUNT
          rw [ih (AddTmprToTrendBuffer v s)
              (by show (s.DU_TmprTrendBufferIdx + 1) % TREND_COUNT < TREND_COUNT
                  unfold TREND_COUNT; omega)]
          show ((s.DU_TmprTrendBufferIdx + 1) % TREND_COUNT + countAdds rest)
                % TREND_COUNT
              = (s.DU_TmprTrendBufferIdx + (countAdds rest + 1)) % TREND_COUNT
          unfold TREND_COUNT
          omega
      | classify =>
          show (runOps rest s).DU_TmprTrendBufferIdx
              = (s.DU_TmprTrendBufferIdx + countAdds rest) % TREND_COUNT
          exact ih s h

/-- C5: over every sequence of Init/Add/Classify operations from program
start, the write cursor equals the number of Add calls modulo
`TREND_COUNT` (so after exactly N Adds it wraps back to 0), stays below
`TREND_COUNT`, and the oldest/newest indices read by
`GetTemperatureTrend` (the slot written by `AddTmprToTrendBuffer` is the
cursor itself) stay within the N slots. -/
theorem trendBuffer_indices_in_bounds (ops : List DUOp) :
    (runOps ops initialState).DU_TmprTrendBufferIdx
        = countAdds ops % TREND_COUNT
    ∧ (runOps ops initialState).DU_TmprTrendBufferIdx < TREND_COUNT
    ∧ trendOldestIdx (runOps ops initialState) < TREND_COUNT
    ∧ trendNewestIdx (runOps ops initialState) < TREND_COUNT := by
  have h1 := idx_invariant ops initialState (by decide)
  have h2 : initialState.DU_TmprTrendBufferIdx = 0 := rfl
  rw [h2, Nat.zero_add] at h1
  have hb : (runOps ops initialState).DU_TmprTrendBufferIdx < TREND_COUNT := by
    rw [h1]; unfold TREND_COUNT; omega
  refine ⟨h1, hb, hb, ?_⟩
  unfold trendNewestIdx TREND_COUNT at *
  split <;> omega

/-- C3: for every state with in-range cursor c, `GetTemperatureTrend`
compares `buffer[(c+N-1) mod N]` (newest) with `buffer[c]` (oldest) against
the threshold `TREND_THRESHOLD = 1/10`, returning 1, -1 or 0; and on the
spec scenarios (Init 20, nine Add 20, then Add 25 resp. Add 15) it returns
Rising resp. Falling. -/
theorem getTemperatureTrend_spec (s : DUState)
    (h : s.DU_TmprTrendBufferIdx < TREND_COUNT) :
    TREND_THRESHOLD = 1 / 10
    ∧ GetTemperatureTrend s =
        (if s.DU_TmprTrendBuffer
              ((s.DU_TmprTrendBufferIdx + TREND_COUNT - 1) % TREND_COUNT)
            > s.DU_TmprTrendBuffer s.DU_TmprTrendBufferIdx + TREND_THRESHOLD
         then 1
         else if s.DU_TmprTrendBuffer
              ((s.DU_TmprTrendBufferIdx + TREND_COUNT - 1) % TREND_COUNT)
            < s.DU_TmprTrendBuffer s.DU_TmprTrendBufferIdx - TREND_THRESHOLD
         then -1
         else 0)
    ∧ GetTemperatureTrend risingState = 1
    ∧ GetTemperatureTrend fallingState = -1 := by
  refine ⟨rfl, ?_, ?_, ?_⟩
  · have hidx : trendNewestIdx s
        = (s.DU_TmprTrendBufferIdx + TREND_COUNT - 1) % TREND_COUNT := by
      unfold trendNewestIdx TREND_COUNT at *
      split <;> omega
    simp only [GetTemperatureTrend, trendOldestIdx, hidx]
  · norm_num [risingState, runOps, applyOp, AddTmprToTrendBuffer,
      Init_TmprTrendBuffer, initialState, GetTemperatureTrend, trendOldestIdx,
      trendNewestIdx, TREND_COUNT, TREND_THRESHOLD, List.replicate]
  · norm_num [fallingState, runOps, applyOp, AddTmprToTrendBuffer,
      Init_TmprTrendBuffer, initialState, GetTemperatureTrend, trendOldestIdx,
      trendNewestIdx, TREND_COUNT, TREND_THRESHOLD, List.replicate]

/-- C3 witness: the cursor of the initial state is in range, and the rising
scenario classifies as 1. -/
theorem getTemperatureTrend_spec_witness :
    initialState.DU_TmprTrendBufferIdx < TREND_COUNT
    ∧ GetTemperatureTrend risingState = 1 :=
  ⟨by decide, (getTemperatureTrend_spec initialState (by decide)).2.2.1⟩

/-- C6: for any smoothing coefficient in (0,1], the smoothing update is a
convex combination of the previous state and the raw input, so it lies
between their minimum and maximum; `Run_ExponentialSmooth` returns exactly
this update at coefficient `ALPHA`. -/
theorem smoothUpdate_between (a prev raw : ℚ) (h0 : 0 < a) (h1 : a ≤ 1) :
    (min prev raw ≤ smoothUpdate a raw prev
      ∧ smoothUpdate a raw prev ≤ max prev raw)
    ∧ ∀ s : DUState,
        (Run_ExponentialSmooth raw s).1 = smoothUpdate ALPHA raw s.DU_Filtered := by
  refine ⟨⟨?_, ?_⟩, fun s => rfl⟩
  · unfold smoothUpdate
    rcases le_total prev raw with hc | hc
    · rw [min_eq_left hc]; nlinarith
    · rw [min_eq_right hc]; nlinarith
  · unfold smoothUpdate
    rcases le_total prev raw with hc | hc
    · rw [max_eq_right hc]; nlinarith
    · rw [max_eq_left hc]; nlinarith

/-- C6 witness: at coefficient 1/2 with previous value 10 and raw value 30,
the update lies between 10 and 30. -/
theorem smoothUpdate_between_witness :
    ((0:ℚ) < 1/2 ∧ (1/2:ℚ) ≤ 1)
    ∧ (min (10:ℚ) 30 ≤ smoothUpdate (1/2) 30 10
        ∧ smoothUpdate (1/2) 30 10 ≤ max (10:ℚ) 30) :=
  ⟨⟨by norm_num, by norm_num⟩,
   (smoothUpdate_between (1/2) 10 30 (by norm_num) (by norm_num)).1⟩

/-- C8: feeding a constant x, each smoothing step is at least as close to x
as the previous state, strictly closer when the state differs from x, and
the output stays between the previous state and x (monotone convergence
toward x). -/
theorem run_smooth_contracts (x : ℚ) (s : DUState) :
    |(Run_ExponentialSmooth x s).1 - x| ≤ |s.DU_Filtered - x|
    ∧ (s.DU_Filtered ≠ x →
        |(Run_ExponentialSmooth x s).1 - x| < |s.DU_Filtered - x|)
    ∧ min s.DU_Filtered x ≤ (Run_ExponentialSmooth x s).1
    ∧ (Run_ExponentialSmooth x s).1 ≤ max s.DU_Filtered x := by
  have key : (Run_ExponentialSmooth x s).1 - x
      = (1 - ALPHA) * (s.DU_Filtered - x) := by
    show ALPHA * x + (1 - ALPHA) * s.DU_Filtered - x
        = (1 - ALPHA) * (s.DU_Filtered - x)
    ring
  have hpos : (0:ℚ) < 1 - ALPHA := by norm_num [ALPHA]
  have hlt : (1 - ALPHA : ℚ) < 1 := by norm_num [ALPHA]
  have habs : |(Run_ExponentialSmooth x s).1 - x|
      = (1 - ALPHA) * |s.DU_Filtered - x| := by
    rw [key, abs_mul, abs_of_pos hpos]
  have hA0 : (0:ℚ) < ALPHA := by norm_num [ALPHA]
  refine ⟨?_, fun hne => ?_, ?_, ?_⟩
  · rw [habs]
    nlinarith [abs_nonneg (s.DU_Filtered - x)]
  · rw [habs]
    have hd : 0 < |s.DU_Filtered - x| := abs_pos.mpr (sub_ne_zero.mpr hne)
    nlinarith
  · rcases le_total s.DU_Filtered x with hc | hc
    · rw [min_eq_left hc]
      show s.DU_Filtered ≤ ALPHA * x + (1 - ALPHA) * s.DU_Filtered
      nlinarith [mul_nonneg hA0.le (sub_nonneg.mpr hc)]
    · rw [min_eq_right hc]
      show x ≤ ALPHA * x + (1 - ALPHA) * s.DU_Filtered
      nlinarith [mul_nonneg hpos.le (sub_nonneg.mpr hc)]
  · rcases le_total s.DU_Filtered x with hc | hc
    · rw [max_eq_right hc]
      show ALPHA * x + (1 - ALPHA) * s.DU_Filtered ≤ x
      nlinarith [mul_nonneg hpos.le (sub_nonneg.mpr hc)]
    · rw [max_eq_left hc]
      show ALPHA * x + (1 - ALPHA) * s.DU_Filtered ≤ s.DU_Filtered
      nlinarith [mul_nonneg hA0.le (sub_nonneg.mpr hc)]

/-- C8 witness: from the program-start state (filter value 20) feeding the
constant 0, the output is strictly closer to 0 than 20 was. -/
theorem run_smooth_contracts_witness :
    initialState.DU_Filtered ≠ (0:ℚ)
    ∧ |(Run_ExponentialSmooth 0 initialState).1 - 0|
        < |initialState.DU_Filtered - 0| :=
  ⟨by norm_num [initialState, DEFAULT_TEMP],
   (run_smooth_contracts 0 initialState).2.1
     (by norm_num [initialState, DEFAULT_TEMP])⟩

/-- C9: `RoundToDecimals` (modelled from the spec, its body being absent
from src/) returns 3.14 on (3.14159, 2); its result is an integer multiple
of `10^(-places)` and within `1/(2*10^places)` of the input (nearest-integer
rounding after scaling). It is a pure function of its two arguments. -/
theorem roundToDecimals_spec (v : ℚ) (p : ℕ) :
    RoundToDecimals 3.14159 2 = 3.14
    ∧ (∃ n : ℤ, RoundToDecimals v p = (n : ℚ) / 10 ^ p)
    ∧ |RoundToDecimals v p - v| ≤ 1 / (2 * 10 ^ p) := by
  refine ⟨?_, ⟨round (v * 10 ^ p), rfl⟩, ?_⟩
  · norm_num [RoundToDecimals, round_eq]
  · have hpow : (0:ℚ) < 10 ^ p := by positivity
    have key : RoundToDecimals v p - v
        = ((round (v * 10 ^ p) : ℚ) - v * 10 ^ p) / 10 ^ p := by
      unfold RoundToDecimals
      field_simp
      ring
    rw [key, abs_div, abs_of_pos hpow]
    have hhalf : |(round (v * 10 ^ p) : ℚ) - v * 10 ^ p| ≤ 1 / 2 := by
      rw [abs_sub_comm]
      exact abs_sub_round (v * 10 ^ p)
    rw [div_le_div_iff₀ hpow (by positivity)]
    nlinarith
